import Mathlib

/-!
Shallow embedding of `src/CP2.py` (class `RoteadorMetroLondres`): graph
building from the two accepted edge-input forms, the time-dependent cost
model, the recursive simple-path enumeration with memoization, and route
selection.

Modelling conventions:
* Python floats are modelled as rationals (`ℚ`); all quantities involved in
  the claims are exact sums of the constants below, so no rounding issue is
  in scope.
* The haversine travel time `_get_tempo_deslocamento` is a fixed function of
  the two stations (via their coordinates); it enters every claim only as an
  opaque per-edge number, so it is carried as an explicit parameter
  `td : String → String → ℚ` of the enumerator.  All enumeration theorems
  are proved for every such function, hence in particular for the one the
  source computes.
* The simulated clock is the number of minutes elapsed since midnight of the
  (fixed) date produced by `datetime.strptime(_, "%H:%M")`; the `hour`
  attribute of such a clock is `(⌊t / 60⌋) % 24`.
* Python exceptions at build/parse time are modelled with `Except`/`Option`.
* The Python recursion always terminates (claim C8); the Lean embedding makes
  this explicit with a fuel argument, `none` meaning fuel exhaustion, and a
  theorem shows sufficient fuel always yields `some`.
-/

namespace CP2

/-- Constant `VELOCIDADE_TREM_KMH` of the source (only used inside the
abstracted travel-time function, kept for completeness). -/
def VELOCIDADE_TREM_KMH : ℚ := 35

/-- Constant `PENALIDADE_TROCA_LINHA_MIN` of the source. -/
def PENALIDADE_TROCA_LINHA_MIN : ℚ := 3

/-- Python `str.strip` on the character list of a string: drop whitespace at
both ends. -/
def stripChars (l : List Char) : List Char :=
  ((l.dropWhile Char.isWhitespace).reverse.dropWhile Char.isWhitespace).reverse

/-- Python `str.strip`. -/
def strip (s : String) : String := ⟨stripChars s.data⟩

/-- Worker for Python `str.split(sep)` with a non-empty separator, with fuel;
`acc` is the current field, reversed.  Fuel at least the length of the
remaining input makes the fuel bound unreachable. -/
def splitFuel (sep : List Char) : ℕ → List Char → List Char → List (List Char)
  | 0, acc, _ => [acc.reverse]
  | _ + 1, acc, [] => [acc.reverse]
  | fuel + 1, acc, c :: resto =>
    if sep ≠ [] ∧ sep.isPrefixOf (c :: resto) then
      acc.reverse :: splitFuel sep fuel [] ((c :: resto).drop sep.length)
    else
      splitFuel sep fuel (c :: acc) resto

/-- Python `s.split(sep)` for a non-empty separator `sep`. -/
def splitString (sep : String) (s : String) : List String :=
  (splitFuel sep.data (s.data.length + 1) [] s.data).map (fun l => ⟨l⟩)

/-- One adjacency entry `{"vizinho": ..., "linha": ...}` of the Python graph. -/
structure Conexao where
  vizinho : String
  linha : String
deriving DecidableEq, Repr

/-- The Python graph: an insertion-ordered dict from station name to its
adjacency list, modelled as an association list. -/
abbrev Graph := List (String × List Conexao)

/-- The key set of the graph dict (Python `x in graph`). -/
def graphKeys (g : Graph) : List String := g.map (fun p => p.1)

/-- Python `graph[s]` (first entry with key `s`; `[]` when the key is absent
— the source only ever looks up declared stations, see the closure
invariant). -/
def graphAdj : Graph → String → List Conexao
  | [], _ => []
  | (k, v) :: resto, s => if k = s then v else graphAdj resto s

/-- Python `graph[k].append(c)`. -/
def graphAppend (g : Graph) (k : String) (c : Conexao) : Graph :=
  g.map (fun p => if p.1 = k then (p.1, p.2 ++ [c]) else p)

/-- Python `graph = {name: [] for name in self.stations}` (lines 37). -/
def graphInit (stations : List String) : Graph := stations.map (fun n => (n, []))

/-- The two reciprocal `graph[...].append` calls adding one undirected edge
(source lines 47–48 and 55–56). -/
def addAresta (g : Graph) (origem destino nome_linha : String) : Graph :=
  graphAppend (graphAppend g origem ⟨destino, nome_linha⟩) destino ⟨origem, nome_linha⟩

/-- Processing of one `(origem, destino)` pair of the mapping input form
(source lines 41–48).  The guard `if not par or len(par) < 2` of the source
cannot fire for a typed pair and has no counterpart here. -/
def addPar (g : Graph) (nome_linha : String) (par : String × String) : Graph :=
  let origem := strip par.1
  let destino := strip par.2
  if origem ∈ graphKeys g ∧ destino ∈ graphKeys g then
    addAresta g origem destino nome_linha
  else g

/-- `_build_graph` on the mapping form `{nome_linha: [(origem, destino), ...]}`
(source lines 39–48); the dict is insertion ordered, hence a list. -/
def buildGraphDict (stations : List String)
    (data : List (String × List (String × String))) : Graph :=
  data.foldl (fun g p => p.2.foldl (fun g' par => addPar g' p.1 par) g)
    (graphInit stations)

/-- The two fatal build-time exceptions of the flat-line form: `ValueError`
from destructuring a line into three fields, `KeyError` from `graph[x]` with
an undeclared station `x`. -/
inductive BuildErr where
  | valueError
  | keyError
deriving DecidableEq, Repr

/-- `origem, destino, nome_linha = [item.strip() for item in line.split(" - ")]`
(source lines 51–53); a field count other than three models the raised
`ValueError`. -/
def parseLinha (line : String) : Except BuildErr (String × String × String) :=
  match (splitString " - " line).map strip with
  | [origem, destino, nome_linha] => .ok (origem, destino, nome_linha)
  | _ => .error .valueError

/-- Processing of one line of the flat input form (source lines 50–56);
`graph[x].append` with `x` not a key models the raised `KeyError` (note the
first append persists before a `KeyError` on the second in Python, but the
exception aborts the whole build either way). -/
def addLinhaFlat (g : Graph) (line : String) : Except BuildErr Graph :=
  match parseLinha line with
  | .error e => .error e
  | .ok (origem, destino, nome_linha) =>
    if origem ∈ graphKeys g then
      if destino ∈ graphKeys (graphAppend g origem ⟨destino, nome_linha⟩) then
        .ok (addAresta g origem destino nome_linha)
      else .error .keyError
    else .error .keyError

/-- `_build_graph` on the flat form, given the already-split lines of
`data.strip().split("\n")`. -/
def buildGraphFlatLines (stations : List String) (lines : List String) :
    Except BuildErr Graph :=
  lines.foldlM addLinhaFlat (graphInit stations)

/-- `_build_graph` on a multiline string (source lines 49–56). -/
def buildGraphFlat (stations : List String) (data : String) : Except BuildErr Graph :=
  buildGraphFlatLines stations (splitString "\n" (strip data))

/-- The two accepted edge-input forms of `_build_graph`. -/
inductive EdgesData where
  | dictForm (d : List (String × List (String × String)))
  | flatForm (s : String)

/-- `_build_graph` (source lines 29–58): branch on the input form. -/
def buildGraph (stations : List String) : EdgesData → Except BuildErr Graph
  | .dictForm d => .ok (buildGraphDict stations d)
  | .flatForm s => buildGraphFlat stations s

/-- Hour-of-day component (`datetime.hour`) of a clock value in minutes. -/
def horaDoDia (t : ℚ) : ℤ := (Int.floor (t / 60)) % 24

/-- `_get_tempo_espera` (source lines 83–90). -/
def getTempoEspera (t : ℚ) : ℚ :=
  if horaDoDia t < 11 then 3/2
  else if 18 ≤ horaDoDia t then 2
  else 1

/-- One candidate path dict of the source: station sequence, total time,
line sequence, transfer count. -/
structure Caminho where
  caminho : List String
  tempo : ℚ
  linhas : List String
  trocas : ℕ
deriving DecidableEq, Repr

/-- The memoization cache `self.memo`: a dict keyed by
`(atual, frozenset(visitados))`; a `frozenset` compares by extension, hence
the `Finset` key. -/
abbrev Memo := List ((String × Finset String) × List Caminho)

/-- Dict lookup in the cache (newest entry first; keys are never stored
twice, and prepending models dict assignment). -/
def memoFind : Memo → String × Finset String → Option (List Caminho)
  | [], _ => none
  | (k', v) :: resto, k => if k' = k then some v else memoFind resto k

/-- The edge cost `tempo_trecho` of source lines 119–127: wait time at the
current clock, travel time, and the transfer penalty when a line of arrival
exists and differs from the line taken. -/
def tempoTrecho (td : String → String → ℚ) (atual vizinho : String)
    (hora_atual : ℚ) (linha_anterior : Option String) (linha_atual : String) : ℚ :=
  getTempoEspera hora_atual + td atual vizinho +
    (if decide (linha_anterior ≠ none ∧ linha_anterior ≠ some linha_atual) then
      PENALIDADE_TROCA_LINHA_MIN else 0)

/-- Prepending the current station and edge to a suffix path
(source lines 136–143). -/
def prependCaminho (td : String → String → ℚ) (atual : String)
    (hora_atual : ℚ) (linha_anterior : Option String) (conexao : Conexao)
    (sc : Caminho) : Caminho :=
  { caminho := atual :: sc.caminho
    tempo := tempoTrecho td atual conexao.vizinho hora_atual linha_anterior conexao.linha + sc.tempo
    linhas := conexao.linha :: sc.linhas
    trocas := (if decide (linha_anterior ≠ none ∧ linha_anterior ≠ some conexao.linha)
        then 1 else 0) + sc.trocas }

/-- Body of the `for conexao in self.graph[atual]` loop (source lines
113–143), threading the found-paths list and the cache through the `foldl`
exactly as the Python loop mutates them; `recFn` is the recursive call at
the remaining fuel. -/
def passoRec (td : String → String → ℚ)
    (recFn : String → Finset String → ℚ → Option String → Memo →
      Option (List Caminho × Memo))
    (atual : String) (visitados novos_visitados : Finset String)
    (hora_atual : ℚ) (linha_anterior : Option String)
    (acc : Option (List Caminho × Memo)) (conexao : Conexao) :
    Option (List Caminho × Memo) :=
  match acc with
  | none => none
  | some (encontrados, memoAcc) =>
    if conexao.vizinho ∈ visitados then some (encontrados, memoAcc)
    else
      match recFn conexao.vizinho novos_visitados
          (hora_atual + tempoTrecho td atual conexao.vizinho hora_atual linha_anterior conexao.linha)
          (some conexao.linha) memoAcc with
      | none => none
      | some (sub_caminhos, memo2) =>
        some (encontrados ++
          sub_caminhos.map (prependCaminho td atual hora_atual linha_anterior conexao), memo2)

/-- `_encontrar_caminhos_recursivo` (source lines 92–147), with the cache
threaded explicitly and a fuel argument for the recursion (`none` = fuel ran
out; sufficient fuel always returns `some`). -/
def encontrarCaminhosRec (g : Graph) (td : String → String → ℚ) (destino : String) :
    ℕ → String → Finset String → ℚ → Option String → Memo →
    Option (List Caminho × Memo)
  | 0, _, _, _, _, _ => none
  | fuel + 1, atual, visitados, hora_atual, linha_anterior, memo =>
    if atual = destino then
      some ([{ caminho := [destino], tempo := 0, linhas := [], trocas := 0 }], memo)
    else
      match memoFind memo (atual, visitados) with
      | some cached => some (cached, memo)
      | none =>
        match (graphAdj g atual).foldl
            (passoRec td
              (fun v vis h la m => encontrarCaminhosRec g td destino fuel v vis h la m)
              atual visitados (visitados ∪ {atual}) hora_atual linha_anterior)
            (some (([] : List Caminho), memo)) with
        | none => none
        | some (encontrados, memo2) =>
          some (encontrados, ((atual, visitados), encontrados) :: memo2)

/-- Body of the neighbor loop without the cache (auxiliary to
`encontrarCaminhosSemMemo`). -/
def passoSemMemo (td : String → String → ℚ)
    (recFn : String → Finset String → ℚ → Option String → Option (List Caminho))
    (atual : String) (visitados novos_visitados : Finset String)
    (hora_atual : ℚ) (linha_anterior : Option String)
    (acc : Option (List Caminho)) (conexao : Conexao) : Option (List Caminho) :=
  match acc with
  | none => none
  | some encontrados =>
    if conexao.vizinho ∈ visitados then some encontrados
    else
      match recFn conexao.vizinho novos_visitados
          (hora_atual + tempoTrecho td atual conexao.vizinho hora_atual linha_anterior conexao.linha)
          (some conexao.linha) with
      | none => none
      | some sub_caminhos =>
        some (encontrados ++
          sub_caminhos.map (prependCaminho td atual hora_atual linha_anterior conexao))

/-- Modelled from the spec (§4.4, recursive case without the memoization
bullet): the same depth-first enumeration with the cache lookup and the
cache store removed.  Used to express that a run of the real enumerator was
unaffected by caching. -/
def encontrarCaminhosSemMemo (g : Graph) (td : String → String → ℚ) (destino : String) :
    ℕ → String → Finset String → ℚ → Option String → Option (List Caminho)
  | 0, _, _, _, _ => none
  | fuel + 1, atual, visitados, hora_atual, linha_anterior =>
    if atual = destino then
      some [{ caminho := [destino], tempo := 0, linhas := [], trocas := 0 }]
    else
      (graphAdj g atual).foldl
        (passoSemMemo td
          (fun v vis h la => encontrarCaminhosSemMemo g td destino fuel v vis h la)
          atual visitados (visitados ∪ {atual}) hora_atual linha_anterior)
        (some ([] : List Caminho))

/-- Python `min(todos, key=lambda x: x["tempo"])`: first element of minimal
time. -/
def minPorTempo (cabeca : Caminho) (resto : List Caminho) : Caminho :=
  resto.foldl (fun melhor c => if c.tempo < melhor.tempo then c else melhor) cabeca

/-- Python `max(todos, key=lambda x: x["tempo"])`: first element of maximal
time. -/
def maxPorTempo (cabeca : Caminho) (resto : List Caminho) : Caminho :=
  resto.foldl (fun melhor c => if melhor.tempo < c.tempo then c else melhor) cabeca

/-- Python `sorted(todos, key=lambda x: x["tempo"])`: `sorted` is stable, and
a stable sort by a key is extensionally unique, so stable insertion sort is
the same function. -/
def ordenarPorTempo (l : List Caminho) : List Caminho :=
  l.insertionSort (fun a b => a.tempo ≤ b.tempo)

/-- Mode dispatch of `encontrar_caminho` (source lines 228–241); `none`
models the invalid-mode report (the empty-collection case is dispatched
before this point in the source and never reaches the `medio` indexing). -/
def selecionarRota (modo : String) (todos : List Caminho) : Option Caminho :=
  if modo = "menor" then
    match todos with
    | [] => none
    | c :: resto => some (minPorTempo c resto)
  else if modo = "maior" then
    match todos with
    | [] => none
    | c :: resto => some (maxPorTempo c resto)
  else if modo = "medio" then
    (ordenarPorTempo todos)[(todos.length - 1) / 2]?
  else none

/-- Value of a (non-empty) digit string. -/
def digitosParaNat (l : List Char) : ℕ :=
  l.foldl (fun acc c => 10 * acc + (c.toNat - 48)) 0

/-- Modelled from the Python standard library: `datetime.strptime(s, "%H:%M")`
accepts exactly one or two digits of hour (value at most 23), a colon, and
one or two digits of minute (value at most 59), with nothing else before or
after; any other string raises `ValueError`, modelled as `none`.  The result
is the clock in minutes after midnight. -/
def parseHora (s : String) : Option ℚ :=
  match splitString ":" s with
  | [hs, ms] =>
    if hs.data ≠ [] ∧ hs.data.length ≤ 2 ∧ hs.data.all Char.isDigit ∧
        ms.data ≠ [] ∧ ms.data.length ≤ 2 ∧ ms.data.all Char.isDigit ∧
        digitosParaNat hs.data ≤ 23 ∧ digitosParaNat ms.data ≤ 59 then
      some (60 * (digitosParaNat hs.data : ℚ) + (digitosParaNat ms.data : ℚ))
    else none
  | _ => none

/-- Observable outcome of one `encontrar_caminho` call: the four reported
(recoverable) conditions print and return `None` in the source, the
unguarded `strptime` raises through the caller, and a successful call
reports the selected path. -/
inductive Resultado where
  | erroEstacao
  | excecaoHora
  | nenhumCaminho
  | modoInvalido
  | ok (caminho : Caminho)
deriving DecidableEq, Repr

/-- `encontrar_caminho` (source lines 202–251), with printing and map
rendering dropped and the instance cache `self.memo` passed in and returned
(it is read and written by the inner recursion and never cleared between
calls).  `none` = fuel exhausted, which sufficient fuel rules out. -/
def encontrarCaminho (stations : List String) (g : Graph) (td : String → String → ℚ)
    (fuel : ℕ) (origem destino hora_inicio_str modo : String) (memo : Memo) :
    Option (Resultado × Memo) :=
  if origem ∉ stations ∨ destino ∉ stations then some (.erroEstacao, memo)
  else
    match parseHora hora_inicio_str with
    | none => some (.excecaoHora, memo)
    | some hora_inicio =>
      match encontrarCaminhosRec g td destino fuel origem ∅ hora_inicio none memo with
      | none => none
      | some (todos_caminhos, memo2) =>
        if todos_caminhos = [] then some (.nenhumCaminho, memo2)
        else
          match selecionarRota modo todos_caminhos with
          | some r => some (.ok r, memo2)
          | none => some (.modoInvalido, memo2)

/-- Modelled from the spec: the total time of a station/line sequence as the
sum, over its edges in order, of the §4.2 edge time evaluated at the
simulated clock reached by the preceding edges and at the line transition
actually taken. -/
def tempoEspecificado (td : String → String → ℚ) :
    List String → List String → ℚ → Option String → ℚ
  | s1 :: s2 :: resto, l :: ls, hora, linha_anterior =>
    let custo := tempoTrecho td s1 s2 hora linha_anterior l
    custo + tempoEspecificado td (s2 :: resto) ls (hora + custo) (some l)
  | _, _, _, _ => 0

/-- Modelled from the spec: the number of adjacent pairs of the line sequence
that differ. -/
def contaTrocas : List String → ℕ
  | a :: b :: resto => (if a ≠ b then 1 else 0) + contaTrocas (b :: resto)
  | _ => 0

/-- Transfer count of a line sequence relative to the line of arrival
(auxiliary for relating the recursive count to `contaTrocas`). -/
def trocasDesde : Option String → List String → ℕ
  | linha_anterior, l :: ls =>
    (if linha_anterior ≠ none ∧ linha_anterior ≠ some l then 1 else 0) +
      trocasDesde (some l) ls
  | _, [] => 0

/-- The per-path property maintained by the memo-free enumeration: the path
starts at the current station and its total time and transfer count are the
spec-mandated ones for the current clock and line of arrival. -/
def EspecCaminho (td : String → String → ℚ) (atual : String) (hora : ℚ)
    (la : Option String) (c : Caminho) : Prop :=
  c.caminho.head? = some atual ∧
  c.tempo = tempoEspecificado td c.caminho c.linhas hora la ∧
  c.trocas = trocasDesde la c.linhas

/-- Structural soundness of one candidate path produced from search state
(`atual`, `visitados`): starts at `atual`, ends at the destination, repeats
no station, avoids the visited set, and has one more station than lines. -/
def CaminhoOk (destino atual : String) (visitados : Finset String) (c : Caminho) : Prop :=
  c.caminho.head? = some atual ∧
  c.caminho.getLast? = some destino ∧
  c.caminho.Nodup ∧
  (∀ s ∈ c.caminho, s ∉ visitados) ∧
  c.caminho.length = c.linhas.length + 1

/-- Structural soundness of every entry of the cache, relative to its own
search-state key. -/
def MemoOk (destino : String) (memo : Memo) : Prop :=
  ∀ k cs, memoFind memo k = some cs → ∀ c ∈ cs, CaminhoOk destino k.1 k.2 c

/-- The graph has no self-loop adjacency entry (decidable form over the
entries). -/
@[reducible] def SemLaco (g : Graph) : Prop := ∀ p ∈ g, ∀ c ∈ p.2, c.vizinho ≠ p.1

/-- Every adjacency entry of every entry of the graph points back into the
key set (decidable form over the entries). -/
@[reducible] def Fechado (g : Graph) : Prop := ∀ p ∈ g, ∀ c ∈ p.2, c.vizinho ∈ graphKeys g

/-- The two invariants of §3 for built graphs: undirected symmetry of
adjacency membership, and closure of every adjacency entry's neighbor in
the key set. -/
def BoaForma (g : Graph) : Prop :=
  (∀ a b l, Conexao.mk b l ∈ graphAdj g a → Conexao.mk a l ∈ graphAdj g b) ∧
  (∀ a c, c ∈ graphAdj g a → c.vizinho ∈ graphKeys g)

/-- Termination measure of a search state: strictly decreases along every
recursive call of the enumerator (even across self-loop edges, where the
visited set does not grow for one step). -/
def medida (g : Graph) (atual : String) (visitados : Finset String) : ℕ :=
  2 * ((graphKeys g).toFinset \ visitados).card + (if atual ∈ visitados then 2 else 1)

/-! ### Concrete instances used by the counterexamples and witnesses -/

/-- A two-station single-line graph, on which caching never alters the
enumeration. -/
def gW : Graph := buildGraphDict ["O", "D"] [("L1", [("O", "D")])]

/-- A travel-time function that is zero everywhere (the lightest admissible
instantiation; every structural claim is independent of it). -/
def tdZero : String → String → ℚ := fun _ _ => 0

/-- Stations of the stale-cache scenario: `O` the origin, `D` the
destination, and two orders (`O,A,B` and `O,B,A`) of reaching `C`. -/
def stationsC1 : List String := ["O", "A", "B", "C", "D"]

/-- Edge data of the stale-cache scenario, in the mapping form: the suffix
from `(C, {O,A,B})` is first computed arriving on line `L4` (no penalty into
`C–D`, also `L4`) and later reused arriving on line `L5` (where the true
cost has a transfer penalty). -/
def dataC1 : List (String × List (String × String)) :=
  [("L1", [("O", "A")]), ("L2", [("O", "B")]), ("L3", [("A", "B")]),
   ("L4", [("B", "C"), ("C", "D")]), ("L5", [("A", "C")])]

/-- The built graph of the stale-cache scenario. -/
def gC1 : Graph := buildGraphDict stationsC1 dataC1

/-- Stations of the cross-query scenario. -/
def stationsC2 : List String := ["O", "D", "E"]

/-- Graph of the cross-query scenario: `O–D` on line `L1`, `O–E` on line
`L2`. -/
def gC2 : Graph := buildGraphDict stationsC2 [("L1", [("O", "D")]), ("L2", [("O", "E")])]

/-- First query on a fresh instance: route from `O` to `D`. -/
def consultaC2a : Option (Resultado × Memo) :=
  encontrarCaminho stationsC2 gC2 tdZero 8 "O" "D" "12:00" "menor" []

/-- Second query on the same instance (the cache returned by the first call
is passed on, as `self.memo` persists): route from `O` to `E`. -/
def consultaC2b : Option (Resultado × Memo) :=
  consultaC2a.bind (fun p => encontrarCaminho stationsC2 gC2 tdZero 8 "O" "E" "12:00" "menor" p.2)

/-- Stations of the self-loop scenario. -/
def stationsC4 : List String := ["O", "X"]

/-- Graph of the self-loop scenario: the mapping form accepts the edge
`(O, O)` (both endpoints are declared) and produces two self-loop adjacency
entries on `O`. -/
def gC4 : Graph := buildGraphDict stationsC4 [("L1", [("O", "O"), ("O", "X")])]

/-! ### Theorems -/

instance : IsTotal Caminho (fun a b => a.tempo ≤ b.tempo) :=
  ⟨fun a b => le_total a.tempo b.tempo⟩

instance : IsTrans Caminho (fun a b => a.tempo ≤ b.tempo) :=
  ⟨fun _ _ _ h h' => le_trans h h'⟩

/-- C9: the wait-time component of the cost model depends only on the hour
component of the departure instant: hour < 11 gives 1.5 minutes, hour ≥ 18
gives 2.0 minutes, any other hour gives 1.0 minutes; in particular 11:00
(hour 11) and 17:59 (hour 17) fall in the middle bracket and 18:00 exactly
(hour 18) falls in the late bracket. -/
theorem c9_faixas_espera :
    (∀ t : ℚ, (horaDoDia t < 11 → getTempoEspera t = 3/2) ∧
      (18 ≤ horaDoDia t → getTempoEspera t = 2) ∧
      (11 ≤ horaDoDia t ∧ horaDoDia t < 18 → getTempoEspera t = 1)) ∧
    horaDoDia (11 * 60) = 11 ∧ getTempoEspera (11 * 60) = 1 ∧
    horaDoDia (17 * 60 + 59) = 17 ∧ getTempoEspera (17 * 60 + 59) = 1 ∧
    horaDoDia (18 * 60) = 18 ∧ getTempoEspera (18 * 60) = 2 := by
  refine ⟨fun t => ⟨fun h => ?_, fun h => ?_, fun h => ?_⟩, ?_, ?_, ?_, ?_, ?_, ?_⟩
  · simp only [getTempoEspera]
    rw [if_pos h]
  · simp only [getTempoEspera]
    rw [if_neg (by omega), if_pos h]
  · simp only [getTempoEspera]
    rw [if_neg (by omega), if_neg (by omega)]
  all_goals with_unfolding_all decide

/-- Witness for C9: 10:00 is in the early bracket, 12:00 in the middle one,
19:00 in the late one. -/
theorem c9_faixas_espera_witness :
    getTempoEspera 600 = 3/2 ∧ getTempoEspera 720 = 1 ∧ getTempoEspera 1140 = 2 :=
  ⟨(c9_faixas_espera.1 600).1 (by with_unfolding_all decide),
   (c9_faixas_espera.1 720).2.2 (by with_unfolding_all decide),
   (c9_faixas_espera.1 1140).2.1 (by with_unfolding_all decide)⟩

/-- C5: on a non-empty collection, the `medio` mode returns exactly the
element at index `(n-1)/2` of the collection sorted ascending by total time
(`n` the number of enumerated paths) — a member of the collection, never an
interpolated average. -/
theorem c5_mediana (todos : List Caminho) (h : todos ≠ []) :
    ∃ r, selecionarRota "medio" todos = some r ∧
      (ordenarPorTempo todos)[(todos.length - 1) / 2]? = some r ∧
      List.Perm (ordenarPorTempo todos) todos ∧
      List.Sorted (fun a b : Caminho => a.tempo ≤ b.tempo) (ordenarPorTempo todos) ∧
      r ∈ todos := by
  have hperm : List.Perm (ordenarPorTempo todos) todos :=
    List.perm_insertionSort _ todos
  have hlen : (ordenarPorTempo todos).length = todos.length := hperm.length_eq
  have hpos : 0 < todos.length := List.length_pos.mpr h
  have hidx : (todos.length - 1) / 2 < (ordenarPorTempo todos).length := by
    rw [hlen]; omega
  refine ⟨(ordenarPorTempo todos)[(todos.length - 1) / 2], ?_, ?_, hperm, ?_, ?_⟩
  · simp [selecionarRota, List.getElem?_eq_getElem hidx]
  · simp [List.getElem?_eq_getElem hidx]
  · exact List.sorted_insertionSort _ todos
  · exact hperm.mem_iff.mp (List.getElem_mem hidx)

/-- Witness for C5: a concrete four-path collection; the sorted times are
1, 2, 3, 5 and the lower median (index 1) is the path of time 2. -/
theorem c5_mediana_witness :
    ∃ r, selecionarRota "medio"
        [⟨["a"], 5, [], 0⟩, ⟨["b"], 1, [], 0⟩, ⟨["c"], 3, [], 0⟩, ⟨["d"], 2, [], 0⟩] = some r ∧
      (ordenarPorTempo
        [⟨["a"], 5, [], 0⟩, ⟨["b"], 1, [], 0⟩, ⟨["c"], 3, [], 0⟩, ⟨["d"], 2, [], 0⟩])[
          (([⟨["a"], 5, [], 0⟩, ⟨["b"], 1, [], 0⟩, ⟨["c"], 3, [], 0⟩,
            (⟨["d"], 2, [], 0⟩ : Caminho)] : List Caminho).length - 1) / 2]? = some r ∧
      List.Perm (ordenarPorTempo
        [⟨["a"], 5, [], 0⟩, ⟨["b"], 1, [], 0⟩, ⟨["c"], 3, [], 0⟩, ⟨["d"], 2, [], 0⟩])
        [⟨["a"], 5, [], 0⟩, ⟨["b"], 1, [], 0⟩, ⟨["c"], 3, [], 0⟩, ⟨["d"], 2, [], 0⟩] ∧
      List.Sorted (fun a b : Caminho => a.tempo ≤ b.tempo)
        (ordenarPorTempo
          [⟨["a"], 5, [], 0⟩, ⟨["b"], 1, [], 0⟩, ⟨["c"], 3, [], 0⟩, ⟨["d"], 2, [], 0⟩]) ∧
      r ∈ [⟨["a"], 5, [], 0⟩, ⟨["b"], 1, [], 0⟩, ⟨["c"], 3, [], 0⟩, ⟨["d"], 2, [], 0⟩] :=
  c5_mediana _ (by decide)

/-- C10: when the start-time string does not match the `%H:%M` format, the
public entry point passes the station-existence check and then hits the
unguarded `strptime`, which raises (outcome `excecaoHora`, distinct from the
four reported, recoverable conditions); an invalid station is instead
reported before the time string is ever parsed. -/
theorem c10_hora_invalida (stations : List String) (g : Graph)
    (td : String → String → ℚ) (fuel : ℕ)
    (origem destino hora_str modo : String) (memo : Memo)
    (hbad : parseHora hora_str = none) :
    (origem ∈ stations → destino ∈ stations →
      encontrarCaminho stations g td fuel origem destino hora_str modo memo =
        some (.excecaoHora, memo)) ∧
    (origem ∉ stations →
      encontrarCaminho stations g td fuel origem destino hora_str modo memo =
        some (.erroEstacao, memo)) := by
  constructor
  · intro ho hd
    unfold encontrarCaminho
    rw [if_neg (by push_neg; exact ⟨ho, hd⟩), hbad]
  · intro ho
    unfold encontrarCaminho
    rw [if_pos (Or.inl ho)]

/-- Witness for C10: the string `banana` does not parse as `%H:%M`; with
valid stations the outcome is the unhandled-exception one, with an invalid
origin the station error is reported first. -/
theorem c10_hora_invalida_witness :
    encontrarCaminho ["O"] [] tdZero 1 "O" "O" "banana" "menor" [] =
      some (.excecaoHora, []) ∧
    encontrarCaminho ["O"] [] tdZero 1 "Z" "O" "banana" "menor" [] =
      some (.erroEstacao, []) :=
  ⟨(c10_hora_invalida ["O"] [] tdZero 1 "O" "O" "banana" "menor" []
      (by with_unfolding_all decide)).1 (by decide) (by decide),
   (c10_hora_invalida ["O"] [] tdZero 1 "Z" "O" "banana" "menor" []
      (by with_unfolding_all decide)).2 (by decide)⟩

/-- C2: the cache is keyed by (station, visited set) only, with no
destination component, and persists across calls.  On the concrete
two-station-destinations instance, the second query (destination `E`)
reuses the suffix set cached at `(O, ∅)` while searching for `D` and
returns the path ending at `D`, not `E` — although a fresh enumeration
(empty cache) for `E` does find a path ending at `E`. -/
theorem c2_cache_compartilhado :
    (consultaC2b.map (fun p =>
      match p.1 with
      | .ok c => decide (c.caminho.getLast? = some "D") &&
          decide (c.caminho.getLast? ≠ some "E")
      | _ => false)) = some true ∧
    ((encontrarCaminhosRec gC2 tdZero "E" 8 "O" ∅ 720 none []).map
      (fun p => p.1.any (fun c => decide (c.caminho.getLast? = some "E")))) =
      some true ∧
    ((encontrarCaminhosRec gC2 tdZero "E" 8 "O" ∅ 720 none []).map
      (fun p => p.1.all (fun c => decide (c.caminho.getLast? = some "E")))) =
      some true := by
  refine ⟨?_, ?_, ?_⟩ <;> with_unfolding_all decide

/-- Counterexample to C1 as stated: on the built graph `gC1`, the query
(`O`, `D`, 12:00) returns a candidate path (namely `O→B→A→C→D`) whose total
time is not the sum of the edge times under the true simulated clock and
true line transitions: the suffix cached at `(C, {O,A,B})` under arrival
line `L4` is reused after arriving on `L5`, dropping a transfer penalty. -/
theorem c1_contraexemplo :
    ((encontrarCaminhosRec gC1 tdZero "D" 12 "O" ∅ 720 none []).map
      (fun p => p.1.all (fun c =>
        decide (c.tempo = tempoEspecificado tdZero c.caminho c.linhas 720 none)))) =
      some false := by
  with_unfolding_all decide

/-- Counterexample to C3 as stated: on the same run, the returned path
`O→B→A→C→D` carries transfer count 2 while its line sequence
`L2,L3,L5,L4` has 3 differing adjacent pairs — the suffix cached under
arrival line `L4` contributes a stale transfer count after arriving on
`L5`. -/
theorem c3_contraexemplo :
    ((encontrarCaminhosRec gC1 tdZero "D" 12 "O" ∅ 720 none []).map
      (fun p => p.1.all (fun c => decide (c.trocas = contaTrocas c.linhas)))) =
      some false := by
  with_unfolding_all decide

theorem especCaminho_base (td : String → String → ℚ) (destino : String)
    (hora : ℚ) (la : Option String) :
    EspecCaminho td destino hora la
      { caminho := [destino], tempo := 0, linhas := [], trocas := 0 } := by
  refine ⟨rfl, ?_, ?_⟩ <;> simp [tempoEspecificado, trocasDesde]

theorem especCaminho_prepend (td : String → String → ℚ) (atual : String)
    (hora : ℚ) (la : Option String) (conexao : Conexao) (sc : Caminho)
    (h : EspecCaminho td conexao.vizinho
      (hora + tempoTrecho td atual conexao.vizinho hora la conexao.linha)
      (some conexao.linha) sc) :
    EspecCaminho td atual hora la (prependCaminho td atual hora la conexao sc) := by
  obtain ⟨hh, ht, hk⟩ := h
  obtain ⟨cs, hcs⟩ : ∃ cs, sc.caminho = conexao.vizinho :: cs := by
    cases hc : sc.caminho with
    | nil => rw [hc] at hh; simp at hh
    | cons a rest =>
      rw [hc] at hh
      simp only [List.head?_cons, Option.some.injEq] at hh
      exact ⟨rest, by rw [hh]⟩
  refine ⟨rfl, ?_, ?_⟩
  · show tempoTrecho td atual conexao.vizinho hora la conexao.linha + sc.tempo =
      tempoEspecificado td (atual :: sc.caminho) (conexao.linha :: sc.linhas) hora la
    rw [hcs]
    simp only [tempoEspecificado]
    rw [← hcs, ← ht]
  · show (if decide (la ≠ none ∧ la ≠ some conexao.linha) then 1 else 0) + sc.trocas =
      trocasDesde la (conexao.linha :: sc.linhas)
    simp only [trocasDesde, ← hk, decide_eq_true_eq]

theorem foldl_passoSemMemo_none (td : String → String → ℚ)
    (recFn : String → Finset String → ℚ → Option String → Option (List Caminho))
    (atual : String) (visitados novos : Finset String) (hora : ℚ)
    (la : Option String) :
    ∀ conexoes : List Conexao,
      conexoes.foldl (passoSemMemo td recFn atual visitados novos hora la) none = none
  | [] => rfl
  | _ :: rest => foldl_passoSemMemo_none td recFn atual visitados novos hora la rest

theorem passoSemMemo_fold_spec (td : String → String → ℚ)
    (recFn : String → Finset String → ℚ → Option String → Option (List Caminho))
    (hrec : ∀ v vis h la res, recFn v vis h la = some res →
      ∀ c ∈ res, EspecCaminho td v h la c) :
    ∀ (conexoes : List Conexao) (atual : String) (visitados novos : Finset String)
      (hora : ℚ) (la : Option String) (acc res : List Caminho),
      (∀ c ∈ acc, EspecCaminho td atual hora la c) →
      conexoes.foldl (passoSemMemo td recFn atual visitados novos hora la)
        (some acc) = some res →
      ∀ c ∈ res, EspecCaminho td atual hora la c := by
  intro conexoes
  induction conexoes with
  | nil =>
    intro atual visitados novos hora la acc res hacc hfold
    simp only [List.foldl_nil, Option.some.injEq] at hfold
    exact hfold ▸ hacc
  | cons cx rest ih =>
    intro atual visitados novos hora la acc res hacc hfold
    rw [List.foldl_cons] at hfold
    by_cases hv : cx.vizinho ∈ visitados
    · rw [show passoSemMemo td recFn atual visitados novos hora la (some acc) cx =
        some acc by simp [passoSemMemo, hv]] at hfold
      exact ih atual visitados novos hora la acc res hacc hfold
    · cases hr : recFn cx.vizinho novos
        (hora + tempoTrecho td atual cx.vizinho hora la cx.linha) (some cx.linha) with
      | none =>
        rw [show passoSemMemo td recFn atual visitados novos hora la (some acc) cx =
          none by simp [passoSemMemo, hv, hr]] at hfold
        rw [foldl_passoSemMemo_none] at hfold
        exact absurd hfold (by simp)
      | some subs =>
        rw [show passoSemMemo td recFn atual visitados novos hora la (some acc) cx =
          some (acc ++ subs.map (prependCaminho td atual hora la cx)) by
            simp [passoSemMemo, hv, hr]] at hfold
        refine ih atual visitados novos hora la _ res ?_ hfold
        intro c hc
        rcases List.mem_append.mp hc with hc | hc
        · exact hacc c hc
        · obtain ⟨sc, hsc, rfl⟩ := List.mem_map.mp hc
          exact especCaminho_prepend td atual hora la cx sc (hrec _ _ _ _ _ hr sc hsc)

theorem semMemo_spec (g : Graph) (td : String → String → ℚ) (destino : String) :
    ∀ (fuel : ℕ) (atual : String) (visitados : Finset String) (hora : ℚ)
      (la : Option String) (res : List Caminho),
      encontrarCaminhosSemMemo g td destino fuel atual visitados hora la = some res →
      ∀ c ∈ res, EspecCaminho td atual hora la c := by
  intro fuel
  induction fuel with
  | zero =>
    intro atual visitados hora la res h
    exact absurd h (by simp [encontrarCaminhosSemMemo])
  | succ fuel ih =>
    intro atual visitados hora la res h
    rw [encontrarCaminhosSemMemo] at h
    by_cases hd : atual = destino
    · rw [if_pos hd] at h
      simp only [Option.some.injEq] at h
      subst hd
      intro c hc
      rw [← h] at hc
      simp only [List.mem_singleton] at hc
      exact hc ▸ especCaminho_base td atual hora la
    · rw [if_neg hd] at h
      exact passoSemMemo_fold_spec td _
        (fun v vis h' la' res' hr => ih v vis h' la' res' hr)
        (graphAdj g atual) atual visitados (visitados ∪ {atual}) hora la [] res
        (by simp) h

/-- Auxiliary: the spec transfer count of a line sequence seen from its own
first line equals the adjacent-differing-pairs count. -/
theorem contaTrocas_eq_trocasDesde :
    ∀ (ls : List String) (l : String), contaTrocas (l :: ls) = trocasDesde (some l) ls := by
  intro ls
  induction ls with
  | nil => intro l; rfl
  | cons b rest ih =>
    intro l
    show (if l ≠ b then 1 else 0) + contaTrocas (b :: rest) =
      (if some l ≠ none ∧ some l ≠ some b then 1 else 0) + trocasDesde (some b) rest
    rw [ih b]
    congr 1
    simp

/-- Auxiliary: from a `none` line of arrival, the spec transfer count is the
adjacent-differing-pairs count of the line sequence. -/
theorem trocasDesde_none : ∀ ls : List String, trocasDesde none ls = contaTrocas ls := by
  intro ls
  cases ls with
  | nil => rfl
  | cons l rest =>
    show (if (none : Option String) ≠ none ∧ (none : Option String) ≠ some l
        then 1 else 0) + trocasDesde (some l) rest = contaTrocas (l :: rest)
    rw [contaTrocas_eq_trocasDesde]
    simp

/-- C1, amended: whenever the memoization does not alter the enumerated
collection — in particular whenever no cached suffix computed under a
different clock or line of arrival is reused — every returned Candidate
Path's total time equals the sum, over its edges in order, of the edge time
computed with the true simulated clock and the true line transition.  (The
counterexample shows the unconditional statement fails when a stale cached
suffix is reused.) -/
theorem c1_emenda (g : Graph) (td : String → String → ℚ) (destino origem : String)
    (fuel : ℕ) (hora : ℚ) (todos : List Caminho) (memo2 : Memo)
    (hrec : encontrarCaminhosRec g td destino fuel origem ∅ hora none [] =
      some (todos, memo2))
    (hsem : encontrarCaminhosSemMemo g td destino fuel origem ∅ hora none = some todos) :
    ∀ c ∈ todos, c.tempo = tempoEspecificado td c.caminho c.linhas hora none :=
  fun c hc => ((semMemo_spec g td destino fuel origem ∅ hora none todos hsem) c hc).2.1

/-- Witness for the amended C1 on the two-station graph `gW`. -/
theorem c1_emenda_witness :
    ({ caminho := ["O", "D"], tempo := 1, linhas := ["L1"], trocas := 0 } : Caminho).tempo =
      tempoEspecificado tdZero
        ({ caminho := ["O", "D"], tempo := 1, linhas := ["L1"], trocas := 0 } : Caminho).caminho
        ({ caminho := ["O", "D"], tempo := 1, linhas := ["L1"], trocas := 0 } : Caminho).linhas
        720 none :=
  c1_emenda gW tdZero "D" "O" 3 720
    [{ caminho := ["O", "D"], tempo := 1, linhas := ["L1"], trocas := 0 }]
    [(("O", ∅), [{ caminho := ["O", "D"], tempo := 1, linhas := ["L1"], trocas := 0 }])]
    (by with_unfolding_all decide) (by with_unfolding_all decide)
    { caminho := ["O", "D"], tempo := 1, linhas := ["L1"], trocas := 0 }
    (List.mem_singleton_self _)

/-- C3, amended: whenever the memoization does not alter the enumerated
collection — in particular whenever no cached suffix computed under a
different line of arrival is reused — every returned Candidate Path's
transfer count equals the number of adjacent differing pairs of its line
sequence.  (The counterexample shows the unconditional statement fails when
a stale cached suffix is reused.) -/
theorem c3_emenda (g : Graph) (td : String → String → ℚ) (destino origem : String)
    (fuel : ℕ) (hora : ℚ) (todos : List Caminho) (memo2 : Memo)
    (hrec : encontrarCaminhosRec g td destino fuel origem ∅ hora none [] =
      some (todos, memo2))
    (hsem : encontrarCaminhosSemMemo g td destino fuel origem ∅ hora none = some todos) :
    ∀ c ∈ todos, c.trocas = contaTrocas c.linhas := by
  intro c hc
  have h := ((semMemo_spec g td destino fuel origem ∅ hora none todos hsem) c hc).2.2
  rw [h, trocasDesde_none]

/-- Witness for the amended C3 on the two-station graph `gW`. -/
theorem c3_emenda_witness :
    ({ caminho := ["O", "D"], tempo := 1, linhas := ["L1"], trocas := 0 } : Caminho).trocas =
      contaTrocas
        ({ caminho := ["O", "D"], tempo := 1, linhas := ["L1"], trocas := 0 } : Caminho).linhas :=
  c3_emenda gW tdZero "D" "O" 3 720
    [{ caminho := ["O", "D"], tempo := 1, linhas := ["L1"], trocas := 0 }]
    [(("O", ∅), [{ caminho := ["O", "D"], tempo := 1, linhas := ["L1"], trocas := 0 }])]
    (by with_unfolding_all decide) (by with_unfolding_all decide)
    { caminho := ["O", "D"], tempo := 1, linhas := ["L1"], trocas := 0 }
    (List.mem_singleton_self _)

theorem graphAdj_mem_entry (g : Graph) (s : String) (c : Conexao)
    (h : c ∈ graphAdj g s) : ∃ adjl, (s, adjl) ∈ g ∧ c ∈ adjl := by
  induction g with
  | nil => exact absurd h (by simp [graphAdj])
  | cons p rest ih =>
    obtain ⟨k, v⟩ := p
    rw [graphAdj] at h
    by_cases hk : k = s
    · rw [if_pos hk] at h
      exact ⟨v, by simp [hk], h⟩
    · rw [if_neg hk] at h
      obtain ⟨adjl, h1, h2⟩ := ih h
      exact ⟨adjl, by simp [h1], h2⟩

theorem semLaco_adj (g : Graph) (hg : SemLaco g) (s : String) (c : Conexao)
    (h : c ∈ graphAdj g s) : c.vizinho ≠ s := by
  obtain ⟨adjl, h1, h2⟩ := graphAdj_mem_entry g s c h
  exact hg (s, adjl) h1 c h2

theorem fechado_adj (g : Graph) (hg : Fechado g) (s : String) (c : Conexao)
    (h : c ∈ graphAdj g s) : c.vizinho ∈ graphKeys g := by
  obtain ⟨adjl, h1, h2⟩ := graphAdj_mem_entry g s c h
  exact hg (s, adjl) h1 c h2

theorem caminhoOk_base (destino : String) (visitados : Finset String)
    (h : destino ∉ visitados) :
    CaminhoOk destino destino visitados
      { caminho := [destino], tempo := 0, linhas := [], trocas := 0 } := by
  refine ⟨rfl, rfl, by simp, ?_, rfl⟩
  intro s hs
  rw [List.mem_singleton] at hs
  exact hs ▸ h

theorem caminhoOk_prepend (destino atual : String) (visitados : Finset String)
    (td : String → String → ℚ) (hora : ℚ) (la : Option String)
    (conexao : Conexao) (sc : Caminho) (ha : atual ∉ visitados)
    (h : CaminhoOk destino conexao.vizinho (visitados ∪ {atual}) sc) :
    CaminhoOk destino atual visitados (prependCaminho td atual hora la conexao sc) := by
  obtain ⟨hh, hl, hn, hdisj, hlen⟩ := h
  refine ⟨rfl, ?_, ?_, ?_, ?_⟩
  · show (atual :: sc.caminho).getLast? = some destino
    cases hc : sc.caminho with
    | nil => rw [hc] at hh; exact absurd hh (by simp)
    | cons a rest => rw [hc] at hl; rw [List.getLast?_cons_cons]; exact hl
  · show (atual :: sc.caminho).Nodup
    refine List.nodup_cons.mpr ⟨?_, hn⟩
    intro hmem
    exact (hdisj atual hmem) (Finset.mem_union_right _ (Finset.mem_singleton_self atual))
  · intro s hs
    rcases List.mem_cons.mp hs with rfl | hs
    · exact ha
    · exact fun hv => (hdisj s hs) (Finset.mem_union_left _ hv)
  · show (atual :: sc.caminho).length = (conexao.linha :: sc.linhas).length + 1
    simpa using hlen

theorem memoOk_nil (destino : String) : MemoOk destino [] :=
  fun _ _ h => Option.noConfusion h

theorem memoOk_cons (destino atual : String) (visitados : Finset String)
    (memo : Memo) (cs : List Caminho) (hm : MemoOk destino memo)
    (hcs : ∀ c ∈ cs, CaminhoOk destino atual visitados c) :
    MemoOk destino (((atual, visitados), cs) :: memo) := by
  intro k cs' h
  rw [memoFind] at h
  by_cases hk : (atual, visitados) = k
  · rw [if_pos hk] at h
    obtain rfl : cs = cs' := Option.some.inj h
    exact hk ▸ hcs
  · rw [if_neg hk] at h
    exact hm k cs' h

theorem foldl_passoRec_none (td : String → String → ℚ)
    (recFn : String → Finset String → ℚ → Option String → Memo →
      Option (List Caminho × Memo))
    (atual : String) (visitados novos : Finset String) (hora : ℚ)
    (la : Option String) :
    ∀ conexoes : List Conexao,
      conexoes.foldl (passoRec td recFn atual visitados novos hora la) none = none
  | [] => rfl
  | _ :: rest => foldl_passoRec_none td recFn atual visitados novos hora la rest

theorem passoRec_fold_ok (g : Graph) (td : String → String → ℚ) (destino : String)
    (fuel : ℕ) (hg : SemLaco g)
    (IH : ∀ atual visitados hora la memo res memo2,
      atual ∉ visitados → MemoOk destino memo →
      encontrarCaminhosRec g td destino fuel atual visitados hora la memo =
        some (res, memo2) →
      (∀ c ∈ res, CaminhoOk destino atual visitados c) ∧ MemoOk destino memo2) :
    ∀ (conexoes : List Conexao) (atual : String) (visitados : Finset String)
      (hora : ℚ) (la : Option String) (acc : List Caminho) (accMemo : Memo)
      (res : List Caminho) (memo2 : Memo),
      (∀ cx ∈ conexoes, cx ∈ graphAdj g atual) →
      atual ∉ visitados →
      MemoOk destino accMemo →
      (∀ c ∈ acc, CaminhoOk destino atual visitados c) →
      conexoes.foldl (passoRec td
        (fun v vis h' la' m => encontrarCaminhosRec g td destino fuel v vis h' la' m)
        atual visitados (visitados ∪ {atual}) hora la) (some (acc, accMemo)) =
        some (res, memo2) →
      (∀ c ∈ res, CaminhoOk destino atual visitados c) ∧ MemoOk destino memo2 := by
  intro conexoes
  induction conexoes with
  | nil =>
    intro atual visitados hora la acc accMemo res memo2 _ _ hmemo hacc hfold
    simp only [List.foldl_nil, Option.some.injEq, Prod.mk.injEq] at hfold
    exact ⟨hfold.1 ▸ hacc, hfold.2 ▸ hmemo⟩
  | cons cx rest ih =>
    intro atual visitados hora la acc accMemo res memo2 hcxs hav hmemo hacc hfold
    rw [List.foldl_cons] at hfold
    by_cases hv : cx.vizinho ∈ visitados
    · rw [show passoRec td
        (fun v vis h' la' m => encontrarCaminhosRec g td destino fuel v vis h' la' m)
        atual visitados (visitados ∪ {atual}) hora la (some (acc, accMemo)) cx =
          some (acc, accMemo) by simp [passoRec, hv]] at hfold
      exact ih atual visitados hora la acc accMemo res memo2
        (fun c hc => hcxs c (List.mem_cons_of_mem cx hc)) hav hmemo hacc hfold
    · cases hr : encontrarCaminhosRec g td destino fuel cx.vizinho (visitados ∪ {atual})
        (hora + tempoTrecho td atual cx.vizinho hora la cx.linha) (some cx.linha)
        accMemo with
      | none =>
        rw [show passoRec td
          (fun v vis h' la' m => encontrarCaminhosRec g td destino fuel v vis h' la' m)
          atual visitados (visitados ∪ {atual}) hora la (some (acc, accMemo)) cx =
            none by simp [passoRec, hv, hr]] at hfold
        rw [foldl_passoRec_none] at hfold
        exact absurd hfold (by simp)
      | some p =>
        obtain ⟨subs, memoc⟩ := p
        have hviz : cx.vizinho ∉ visitados ∪ {atual} := by
          have hne : cx.vizinho ≠ atual :=
            semLaco_adj g hg atual cx (hcxs cx (List.mem_cons_self cx rest))
          simp [hv, hne]
        have hchild := IH cx.vizinho (visitados ∪ {atual}) _ _ accMemo subs memoc
          hviz hmemo hr
        rw [show passoRec td
          (fun v vis h' la' m => encontrarCaminhosRec g td destino fuel v vis h' la' m)
          atual visitados (visitados ∪ {atual}) hora la (some (acc, accMemo)) cx =
            some (acc ++ subs.map (prependCaminho td atual hora la cx), memoc) by
              simp [passoRec, hv, hr]] at hfold
        refine ih atual visitados hora la _ memoc res memo2
          (fun c hc => hcxs c (List.mem_cons_of_mem cx hc)) hav hchild.2 ?_ hfold
        intro c hc
        rcases List.mem_append.mp hc with hc | hc
        · exact hacc c hc
        · obtain ⟨sc, hsc, rfl⟩ := List.mem_map.mp hc
          exact caminhoOk_prepend destino atual visitados td hora la cx sc hav
            (hchild.1 sc hsc)

theorem rec_caminhoOk (g : Graph) (td : String → String → ℚ) (destino : String)
    (hg : SemLaco g) :
    ∀ (fuel : ℕ) (atual : String) (visitados : Finset String) (hora : ℚ)
      (la : Option String) (memo : Memo) (res : List Caminho) (memo2 : Memo),
      atual ∉ visitados → MemoOk destino memo →
      encontrarCaminhosRec g td destino fuel atual visitados hora la memo =
        some (res, memo2) →
      (∀ c ∈ res, CaminhoOk destino atual visitados c) ∧ MemoOk destino memo2 := by
  intro fuel
  induction fuel with
  | zero =>
    intro atual visitados hora la memo res memo2 _ _ h
    exact absurd h (by simp [encontrarCaminhosRec])
  | succ fuel ih =>
    intro atual visitados hora la memo res memo2 hav hm h
    rw [encontrarCaminhosRec] at h
    by_cases hd : atual = destino
    · rw [if_pos hd] at h
      simp only [Option.some.injEq, Prod.mk.injEq] at h
      obtain ⟨hres, hmemo⟩ := h
      subst hd
      refine ⟨?_, hmemo ▸ hm⟩
      intro c hc
      rw [← hres, List.mem_singleton] at hc
      exact hc ▸ caminhoOk_base atual visitados hav
    · rw [if_neg hd] at h
      cases hmf : memoFind memo (atual, visitados) with
      | some cached =>
        rw [hmf] at h
        simp only [Option.some.injEq, Prod.mk.injEq] at h
        obtain ⟨hres, hmemo⟩ := h
        exact ⟨fun c hc => hm (atual, visitados) cached hmf c (hres ▸ hc), hmemo ▸ hm⟩
      | none =>
        rw [hmf] at h
        cases hfold : (graphAdj g atual).foldl (passoRec td
            (fun v vis h' la' m => encontrarCaminhosRec g td destino fuel v vis h' la' m)
            atual visitados (visitados ∪ {atual}) hora la)
            (some (([] : List Caminho), memo)) with
        | none => rw [hfold] at h; exact absurd h (by simp)
        | some p =>
          obtain ⟨encontrados, memoc⟩ := p
          rw [hfold] at h
          simp only [Option.some.injEq, Prod.mk.injEq] at h
          obtain ⟨hres, hmemo⟩ := h
          have hok := passoRec_fold_ok g td destino fuel hg ih (graphAdj g atual)
            atual visitados hora la [] memo encontrados memoc (fun _ hx => hx)
            hav hm (by simp) hfold
          refine ⟨hres ▸ hok.1, hmemo ▸ ?_⟩
          exact memoOk_cons destino atual visitados memoc encontrados hok.2 hok.1

/-- Counterexample to C4 as stated: the mapping form accepts the self-loop
edge `(O, O)` (both endpoints are declared stations), and on the resulting
graph the query (`O`, `X`) returns the candidate path `O→O→X`, whose
station sequence repeats `O` — not a simple path. -/
theorem c4_contraexemplo :
    ((encontrarCaminhosRec gC4 tdZero "X" 6 "O" ∅ 720 none []).map
      (fun p => p.1.all (fun c => decide c.caminho.Nodup))) = some false := by
  with_unfolding_all decide

/-- C4, amended: for a search started with an empty cache on a graph with no
self-loop adjacency entry, every returned Candidate Path is a simple path:
no repeated station, it starts at the origin, ends at the destination, and
its station sequence is one longer than its line sequence.  (The
counterexample shows the no-self-loop proviso is necessary, and C2 shows
the empty-cache proviso is necessary.) -/
theorem c4_emenda (g : Graph) (td : String → String → ℚ) (destino origem : String)
    (fuel : ℕ) (hora : ℚ) (todos : List Caminho) (memo2 : Memo)
    (hg : SemLaco g)
    (h : encontrarCaminhosRec g td destino fuel origem ∅ hora none [] =
      some (todos, memo2)) :
    ∀ c ∈ todos, c.caminho.head? = some origem ∧
      c.caminho.getLast? = some destino ∧ c.caminho.Nodup ∧
      c.caminho.length = c.linhas.length + 1 := by
  intro c hc
  have hok := (rec_caminhoOk g td destino hg fuel origem ∅ hora none [] todos memo2
    (by simp) (memoOk_nil destino) h).1 c hc
  exact ⟨hok.1, hok.2.1, hok.2.2.1, hok.2.2.2.2⟩

/-- Witness for the amended C4 on the self-loop-free graph `gC2`. -/
theorem c4_emenda_witness :
    ({ caminho := ["O", "D"], tempo := 1, linhas := ["L1"], trocas := 0 } : Caminho).caminho.head? =
        some "O" ∧
    ({ caminho := ["O", "D"], tempo := 1, linhas := ["L1"], trocas := 0 } : Caminho).caminho.getLast? =
        some "D" ∧
    ({ caminho := ["O", "D"], tempo := 1, linhas := ["L1"], trocas := 0 } : Caminho).caminho.Nodup ∧
    ({ caminho := ["O", "D"], tempo := 1, linhas := ["L1"], trocas := 0 } : Caminho).caminho.length =
      ({ caminho := ["O", "D"], tempo := 1, linhas := ["L1"], trocas := 0 } : Caminho).linhas.length + 1 :=
  c4_emenda gC2 tdZero "D" "O" 8 720
    [{ caminho := ["O", "D"], tempo := 1, linhas := ["L1"], trocas := 0 }]
    [(("O", ∅), [{ caminho := ["O", "D"], tempo := 1, linhas := ["L1"], trocas := 0 }]),
     (("E", {"O"}), [])]
    (by with_unfolding_all decide) (by with_unfolding_all decide)
    { caminho := ["O", "D"], tempo := 1, linhas := ["L1"], trocas := 0 }
    (List.mem_singleton_self _)

theorem medida_pos (g : Graph) (atual : String) (visitados : Finset String) :
    1 ≤ medida g atual visitados := by
  unfold medida
  split <;> omega

/-- The termination measure strictly decreases along every recursive call of
the enumerator, including calls across a self-loop edge. -/
theorem medida_decresce (g : Graph) (atual viz : String) (visitados : Finset String)
    (hk : atual ∈ graphKeys g) (hviz : viz ∉ visitados) :
    medida g viz (visitados ∪ {atual}) < medida g atual visitados := by
  unfold medida
  rw [Finset.union_comm, ← Finset.insert_eq]
  by_cases hav : atual ∈ visitados
  · rw [Finset.insert_eq_self.mpr hav]
    rw [if_pos hav, if_neg hviz]
    omega
  · have hmem : atual ∈ (graphKeys g).toFinset \ visitados :=
      Finset.mem_sdiff.mpr ⟨List.mem_toFinset.mpr hk, hav⟩
    have hcard : (((graphKeys g).toFinset \ visitados).erase atual).card =
        ((graphKeys g).toFinset \ visitados).card - 1 :=
      Finset.card_erase_of_mem hmem
    have hpos : 0 < ((graphKeys g).toFinset \ visitados).card :=
      Finset.card_pos.mpr ⟨atual, hmem⟩
    rw [Finset.sdiff_insert, hcard, if_neg hav]
    split <;> omega

theorem passoRec_fold_isSome (g : Graph) (td : String → String → ℚ)
    (destino : String) (fuel : ℕ) (hfech : Fechado g)
    (IH : ∀ v vis (hora : ℚ) (la : Option String) (memo : Memo),
      v ∈ graphKeys g → medida g v vis ≤ fuel →
      (encontrarCaminhosRec g td destino fuel v vis hora la memo).isSome) :
    ∀ (conexoes : List Conexao) (atual : String) (visitados : Finset String)
      (hora : ℚ) (la : Option String) (acc : List Caminho) (accMemo : Memo),
      (∀ cx ∈ conexoes, cx ∈ graphAdj g atual) →
      (∀ cx ∈ conexoes, cx.vizinho ∉ visitados →
        medida g cx.vizinho (visitados ∪ {atual}) ≤ fuel) →
      (conexoes.foldl (passoRec td
        (fun v vis h' la' m => encontrarCaminhosRec g td destino fuel v vis h' la' m)
        atual visitados (visitados ∪ {atual}) hora la)
        (some (acc, accMemo))).isSome := by
  intro conexoes
  induction conexoes with
  | nil =>
    intro atual visitados hora la acc accMemo _ _
    simp
  | cons cx rest ih =>
    intro atual visitados hora la acc accMemo hcxs hmed
    rw [List.foldl_cons]
    by_cases hv : cx.vizinho ∈ visitados
    · rw [show passoRec td
        (fun v vis h' la' m => encontrarCaminhosRec g td destino fuel v vis h' la' m)
        atual visitados (visitados ∪ {atual}) hora la (some (acc, accMemo)) cx =
          some (acc, accMemo) by simp [passoRec, hv]]
      exact ih atual visitados hora la acc accMemo
        (fun c hc => hcxs c (List.mem_cons_of_mem cx hc))
        (fun c hc => hmed c (List.mem_cons_of_mem cx hc))
    · have hks : cx.vizinho ∈ graphKeys g :=
        fechado_adj g hfech atual cx (hcxs cx (List.mem_cons_self cx rest))
      have hsome := IH cx.vizinho (visitados ∪ {atual})
        (hora + tempoTrecho td atual cx.vizinho hora la cx.linha) (some cx.linha)
        accMemo hks (hmed cx (List.mem_cons_self cx rest) hv)
      obtain ⟨p, hp⟩ := Option.isSome_iff_exists.mp hsome
      obtain ⟨subs, memoc⟩ := p
      rw [show passoRec td
        (fun v vis h' la' m => encontrarCaminhosRec g td destino fuel v vis h' la' m)
        atual visitados (visitados ∪ {atual}) hora la (some (acc, accMemo)) cx =
          some (acc ++ subs.map (prependCaminho td atual hora la cx), memoc) by
            simp [passoRec, hv, hp]]
      exact ih atual visitados hora la _ memoc
        (fun c hc => hcxs c (List.mem_cons_of_mem cx hc))
        (fun c hc => hmed c (List.mem_cons_of_mem cx hc))

theorem rec_isSome (g : Graph) (td : String → String → ℚ) (destino : String)
    (hfech : Fechado g) :
    ∀ (fuel : ℕ) (atual : String) (visitados : Finset String) (hora : ℚ)
      (la : Option String) (memo : Memo),
      atual ∈ graphKeys g → medida g atual visitados ≤ fuel →
      (encontrarCaminhosRec g td destino fuel atual visitados hora la memo).isSome := by
  intro fuel
  induction fuel with
  | zero =>
    intro atual visitados _ _ _ _ hμ
    exact absurd hμ (by have := medida_pos g atual visitados; omega)
  | succ fuel ih =>
    intro atual visitados hora la memo hk hμ
    rw [encontrarCaminhosRec]
    by_cases hd : atual = destino
    · rw [if_pos hd]; simp
    · rw [if_neg hd]
      cases hmf : memoFind memo (atual, visitados) with
      | some cached => simp
      | none =>
        have hfold := passoRec_fold_isSome g td destino fuel hfech
          (fun v vis h' la' m => ih v vis h' la' m)
          (graphAdj g atual) atual visitados hora la [] memo (fun _ hx => hx)
          (fun cx hcx hviz => by
            have := medida_decresce g atual cx.vizinho visitados hk hviz
            omega)
        obtain ⟨p, hp⟩ := Option.isSome_iff_exists.mp hfold
        obtain ⟨encontrados, memoc⟩ := p
        rw [hp]
        simp

/-- C8: the enumeration terminates on every finite graph whose adjacency
entries all point back into the station key set: every recursive call goes
to a neighbor absent from the visited set with the visited set enlarged by
the current station, and with fuel at least twice the number of stations
plus two — an upper bound on the strictly decreasing measure of any search
state — the enumerator returns a result (it never exhausts the fuel, i.e.
the Python recursion bottoms out). -/
theorem c8_terminacao (g : Graph) (td : String → String → ℚ)
    (destino origem : String) (visitados : Finset String) (hora : ℚ)
    (la : Option String) (memo : Memo) (fuel : ℕ)
    (hfech : Fechado g) (ho : origem ∈ graphKeys g)
    (hfuel : 2 * (graphKeys g).toFinset.card + 2 ≤ fuel) :
    (encontrarCaminhosRec g td destino fuel origem visitados hora la memo).isSome := by
  apply rec_isSome g td destino hfech fuel origem visitados hora la memo ho
  have hsub : ((graphKeys g).toFinset \ visitados).card ≤ (graphKeys g).toFinset.card :=
    Finset.card_le_card (Finset.sdiff_subset)
  unfold medida
  split <;> omega

/-- Witness for C8: on the concrete graph `gC2` (three stations), fuel 8
suffices for any query, from any search state. -/
theorem c8_terminacao_witness :
    (encontrarCaminhosRec gC2 tdZero "D" 8 "O" ∅ 720 none []).isSome :=
  c8_terminacao gC2 tdZero "D" "O" ∅ 720 none [] 8
    (by with_unfolding_all decide) (by with_unfolding_all decide)
    (by with_unfolding_all decide)

theorem graphKeys_append (g : Graph) (k : String) (c : Conexao) :
    graphKeys (graphAppend g k c) = graphKeys g := by
  unfold graphAppend graphKeys
  rw [List.map_map]
  apply List.map_congr_left
  intro p _
  by_cases h : p.1 = k <;> simp [h]

theorem graphAdj_init (stations : List String) (s : String) :
    graphAdj (graphInit stations) s = [] := by
  induction stations with
  | nil => rfl
  | cons a rest ih =>
    show graphAdj ((a, []) :: graphInit rest) s = []
    rw [graphAdj]
    split
    · rfl
    · exact ih

theorem graphAdj_append_ne (g : Graph) (k s : String) (c : Conexao) (h : s ≠ k) :
    graphAdj (graphAppend g k c) s = graphAdj g s := by
  induction g with
  | nil => rfl
  | cons p rest ih =>
    obtain ⟨pk, pv⟩ := p
    show graphAdj ((if pk = k then (pk, pv ++ [c]) else (pk, pv)) :: graphAppend rest k c) s
      = graphAdj ((pk, pv) :: rest) s
    by_cases hks : pk = s
    · have hpk : pk ≠ k := fun he => h (hks ▸ he)
      rw [if_neg hpk]
      show graphAdj ((pk, pv) :: graphAppend rest k c) s = graphAdj ((pk, pv) :: rest) s
      rw [graphAdj, graphAdj, if_pos hks, if_pos hks]
    · have h1 : graphAdj ((if pk = k then (pk, pv ++ [c]) else (pk, pv)) ::
          graphAppend rest k c) s = graphAdj (graphAppend rest k c) s := by
        by_cases hpk : pk = k
        · rw [if_pos hpk, graphAdj, if_neg hks]
        · rw [if_neg hpk, graphAdj, if_neg hks]
      rw [h1, ih, graphAdj, if_neg hks]

theorem graphAdj_append_self (g : Graph) (k : String) (c : Conexao)
    (h : k ∈ graphKeys g) : graphAdj (graphAppend g k c) k = graphAdj g k ++ [c] := by
  induction g with
  | nil => exact absurd h (by simp [graphKeys])
  | cons p rest ih =>
    obtain ⟨pk, pv⟩ := p
    show graphAdj ((if pk = k then (pk, pv ++ [c]) else (pk, pv)) :: graphAppend rest k c) k
      = graphAdj ((pk, pv) :: rest) k ++ [c]
    by_cases hpk : pk = k
    · rw [if_pos hpk, graphAdj, if_pos hpk, graphAdj, if_pos hpk]
    · have h' : k ∈ graphKeys rest := by
        rcases List.mem_cons.mp h with he | h'
        · exact absurd he.symm hpk
        · exact h'
      rw [if_neg hpk, graphAdj, if_neg hpk, graphAdj, if_neg hpk]
      exact ih h'

theorem mem_adj_addAresta (g : Graph) (o d nome : String) (ho : o ∈ graphKeys g)
    (hd : d ∈ graphKeys g) (s : String) (cx : Conexao) :
    cx ∈ graphAdj (addAresta g o d nome) s ↔
      cx ∈ graphAdj g s ∨ (s = o ∧ cx = ⟨d, nome⟩) ∨ (s = d ∧ cx = ⟨o, nome⟩) := by
  unfold addAresta
  have hkeys : d ∈ graphKeys (graphAppend g o ⟨d, nome⟩) := by
    rw [graphKeys_append]; exact hd
  by_cases hsd : s = d
  · subst hsd
    rw [graphAdj_append_self _ _ _ hkeys]
    by_cases hso : s = o
    · subst hso
      rw [graphAdj_append_self _ _ _ ho]
      simp only [List.mem_append, List.mem_singleton, true_and]
      tauto
    · rw [graphAdj_append_ne _ _ _ _ hso]
      simp only [List.mem_append, List.mem_singleton, true_and, hso, false_and]
      tauto
  · rw [graphAdj_append_ne _ _ _ _ hsd]
    by_cases hso : s = o
    · subst hso
      rw [graphAdj_append_self _ _ _ ho]
      simp only [List.mem_append, List.mem_singleton, true_and, hsd, false_and]
      tauto
    · rw [graphAdj_append_ne _ _ _ _ hso]
      simp [hso, hsd]

theorem boaForma_addAresta (g : Graph) (o d nome : String) (ho : o ∈ graphKeys g)
    (hd : d ∈ graphKeys g) (h : BoaForma g) : BoaForma (addAresta g o d nome) := by
  obtain ⟨hsym, hcl⟩ := h
  have hkeys : graphKeys (addAresta g o d nome) = graphKeys g := by
    unfold addAresta
    rw [graphKeys_append, graphKeys_append]
  constructor
  · intro a b l hab
    rw [mem_adj_addAresta g o d nome ho hd] at hab ⊢
    rcases hab with hab | ⟨rfl, he⟩ | ⟨rfl, he⟩
    · exact Or.inl (hsym a b l hab)
    · obtain ⟨rfl, rfl⟩ : b = d ∧ l = nome := by simpa [Conexao.mk.injEq] using he
      exact Or.inr (Or.inr ⟨rfl, rfl⟩)
    · obtain ⟨rfl, rfl⟩ : b = o ∧ l = nome := by simpa [Conexao.mk.injEq] using he
      exact Or.inr (Or.inl ⟨rfl, rfl⟩)
  · intro a cx hcx
    rw [hkeys]
    rw [mem_adj_addAresta g o d nome ho hd] at hcx
    rcases hcx with hcx | ⟨rfl, rfl⟩ | ⟨rfl, rfl⟩
    · exact hcl a cx hcx
    · exact hd
    · exact ho

theorem boaForma_init (stations : List String) : BoaForma (graphInit stations) := by
  constructor
  · intro a b l hab
    rw [graphAdj_init] at hab
    exact absurd hab (List.not_mem_nil _)
  · intro a cx hcx
    rw [graphAdj_init] at hcx
    exact absurd hcx (List.not_mem_nil _)

theorem boaForma_addPar (g : Graph) (nome : String) (par : String × String)
    (h : BoaForma g) : BoaForma (addPar g nome par) := by
  by_cases hk : strip par.1 ∈ graphKeys g ∧ strip par.2 ∈ graphKeys g
  · rw [show addPar g nome par = addAresta g (strip par.1) (strip par.2) nome by
      simp only [addPar]; rw [if_pos hk]]
    exact boaForma_addAresta g _ _ nome hk.1 hk.2 h
  · rw [show addPar g nome par = g by simp only [addPar]; rw [if_neg hk]]
    exact h

theorem boaForma_buildGraphDict (stations : List String)
    (data : List (String × List (String × String))) :
    BoaForma (buildGraphDict stations data) := by
  unfold buildGraphDict
  suffices h : ∀ (d : List (String × List (String × String))) (g : Graph), BoaForma g →
      BoaForma (d.foldl (fun g' p => p.2.foldl (fun g'' par => addPar g'' p.1 par) g') g) by
    exact h data _ (boaForma_init stations)
  intro d
  induction d with
  | nil => exact fun g hg => hg
  | cons p rest ih =>
    intro g hg
    rw [List.foldl_cons]
    apply ih
    have hin : ∀ (pares : List (String × String)) (g' : Graph), BoaForma g' →
        BoaForma (pares.foldl (fun g'' par => addPar g'' p.1 par) g') := by
      intro pares
      induction pares with
      | nil => exact fun g' hg' => hg'
      | cons par rest2 ih2 =>
        intro g' hg'
        rw [List.foldl_cons]
        exact ih2 _ (boaForma_addPar g' p.1 par hg')
    exact hin p.2 g hg

theorem boaForma_addLinhaFlat (g g2 : Graph) (line : String) (hg : BoaForma g)
    (h : addLinhaFlat g line = .ok g2) : BoaForma g2 := by
  unfold addLinhaFlat at h
  split at h
  · exact absurd h (by simp)
  · rename_i o d n heq
    split at h
    · split at h
      · rename_i ho hd
        obtain rfl : addAresta g o d n = g2 := by injection h
        exact boaForma_addAresta g o d n ho (by rwa [graphKeys_append] at hd) hg
      · exact absurd h (by simp)
    · exact absurd h (by simp)

theorem boaForma_buildFlatLines :
    ∀ (lines : List String) (g : Graph), BoaForma g →
      ∀ g2, lines.foldlM addLinhaFlat g = .ok g2 → BoaForma g2 := by
  intro lines
  induction lines with
  | nil =>
    intro g hg g2 h
    obtain rfl : g = g2 := by
      rw [List.foldlM_nil] at h
      injection h
    exact hg
  | cons line rest ih =>
    intro g hg g2 h
    rw [List.foldlM_cons] at h
    cases hl : addLinhaFlat g line with
    | error e =>
      rw [hl] at h
      exact absurd h (by simp [Bind.bind, Except.bind])
    | ok g1 =>
      rw [hl] at h
      exact ih g1 (boaForma_addLinhaFlat g g1 line hg hl) g2 h

/-- C7: for every graph the builder accepts (either input form), adjacency
is symmetric — whenever `B` is a neighbor of `A` via line `L`, `A` is a
neighbor of `B` via the same line — and every adjacency entry's neighbor is
itself a valid station key of the graph. -/
theorem c7_simetria (stations : List String) (data : EdgesData) (g : Graph)
    (h : buildGraph stations data = .ok g) :
    (∀ a b l, Conexao.mk b l ∈ graphAdj g a → Conexao.mk a l ∈ graphAdj g b) ∧
    (∀ a c, c ∈ graphAdj g a → c.vizinho ∈ graphKeys g) := by
  cases data with
  | dictForm d =>
    unfold buildGraph at h
    obtain rfl : buildGraphDict stations d = g := by injection h
    exact boaForma_buildGraphDict stations d
  | flatForm s =>
    unfold buildGraph buildGraphFlat at h
    exact boaForma_buildFlatLines _ _ (boaForma_init stations) g h

/-- Witness for C7 on the concrete built graph `gC2`. -/
theorem c7_simetria_witness :
    (∀ a b l, Conexao.mk b l ∈ graphAdj gC2 a → Conexao.mk a l ∈ graphAdj gC2 b) ∧
    (∀ a c, c ∈ graphAdj gC2 a → c.vizinho ∈ graphKeys gC2) :=
  c7_simetria stationsC2 (.dictForm [("L1", [("O", "D")]), ("L2", [("O", "E")])]) gC2 rfl

theorem addPar_ignora (g : Graph) (nome : String) (par : String × String)
    (h : strip par.1 ∉ graphKeys g ∨ strip par.2 ∉ graphKeys g) :
    addPar g nome par = g := by
  have hn : ¬(strip par.1 ∈ graphKeys g ∧ strip par.2 ∈ graphKeys g) := by tauto
  simp only [addPar]
  rw [if_neg hn]

theorem parseLinha_malformada (line : String)
    (h : (splitString " - " line).length ≠ 3) :
    parseLinha line = .error .valueError := by
  have hl : ((splitString " - " line).map strip).length ≠ 3 := by
    rw [List.length_map]; exact h
  unfold parseLinha
  rcases hsp : (splitString " - " line).map strip with _ | ⟨a, _ | ⟨b, _ | ⟨c, _ | ⟨e, resto⟩⟩⟩⟩
  · rfl
  · rfl
  · rfl
  · rw [hsp] at hl
    exact absurd rfl hl
  · rfl

theorem addLinhaFlat_erro_parse (g : Graph) (line : String) (e : BuildErr)
    (h : parseLinha line = .error e) : addLinhaFlat g line = .error e := by
  unfold addLinhaFlat
  rw [h]

theorem addLinhaFlat_chave_ausente (g : Graph) (line o d n : String)
    (hp : parseLinha line = .ok (o, d, n))
    (h : o ∉ graphKeys g ∨ d ∉ graphKeys g) :
    addLinhaFlat g line = .error .keyError := by
  unfold addLinhaFlat
  rw [hp]
  show (if o ∈ graphKeys g then
      if d ∈ graphKeys (graphAppend g o ⟨d, n⟩) then
        Except.ok (addAresta g o d n)
      else Except.error BuildErr.keyError
    else Except.error BuildErr.keyError) = Except.error BuildErr.keyError
  rcases h with h | h
  · rw [if_neg h]
  · by_cases ho : o ∈ graphKeys g
    · rw [if_pos ho, if_neg (by rw [graphKeys_append]; exact h)]
    · rw [if_neg ho]

theorem buildFlatLines_fatal (stations : List String) :
    ∀ (lines : List String) (line : String), line ∈ lines →
      (∀ g' : Graph, ∃ e, addLinhaFlat g' line = .error e) →
      ∃ e, buildGraphFlatLines stations lines = .error e := by
  suffices h : ∀ (lines : List String) (g : Graph) (line : String), line ∈ lines →
      (∀ g' : Graph, ∃ e, addLinhaFlat g' line = .error e) →
      ∃ e, lines.foldlM addLinhaFlat g = .error e by
    intro lines line hmem hbad
    exact h lines (graphInit stations) line hmem hbad
  intro lines
  induction lines with
  | nil =>
    intro g line hmem
    exact absurd hmem (List.not_mem_nil line)
  | cons l rest ih =>
    intro g line hmem hbad
    rw [List.foldlM_cons]
    rcases List.mem_cons.mp hmem with rfl | hmem
    · obtain ⟨e, he⟩ := hbad g
      rw [he]
      exact ⟨e, rfl⟩
    · cases hl : addLinhaFlat g l with
      | error e => exact ⟨e, rfl⟩
      | ok g1 =>
        obtain ⟨e, he⟩ := ih g1 line hmem hbad
        exact ⟨e, he⟩

/-- C6: in the mapping form, an edge pair with an undeclared (stripped)
endpoint is silently skipped, adding no adjacency entries; in the flat-line
form, a line must destructure into exactly three trimmed fields (otherwise
the fatal `ValueError`), a parse failure is fatal for the whole build, and a
well-formed line with an undeclared endpoint is the fatal `KeyError`; any
line that fails on every graph state makes the whole flat build fail. -/
theorem c6_erros_construcao :
    (∀ (g : Graph) (nome : String) (par : String × String),
      strip par.1 ∉ graphKeys g ∨ strip par.2 ∉ graphKeys g →
        addPar g nome par = g) ∧
    (∀ line : String, (splitString " - " line).length ≠ 3 →
      parseLinha line = .error .valueError) ∧
    (∀ (g : Graph) (line : String) (e : BuildErr), parseLinha line = .error e →
      addLinhaFlat g line = .error e) ∧
    (∀ (g : Graph) (line o d n : String), parseLinha line = .ok (o, d, n) →
      o ∉ graphKeys g ∨ d ∉ graphKeys g →
        addLinhaFlat g line = .error .keyError) ∧
    (∀ (stations lines : List String) (line : String), line ∈ lines →
      (∀ g' : Graph, ∃ e, addLinhaFlat g' line = .error e) →
      ∃ e, buildGraphFlatLines stations lines = .error e) :=
  ⟨addPar_ignora, parseLinha_malformada, addLinhaFlat_erro_parse,
   addLinhaFlat_chave_ausente, buildFlatLines_fatal⟩

/-- Witness for C6: a pair with undeclared endpoint `Z` is skipped by the
mapping form; the one-field line `soCampo` is a fatal `ValueError`; the
well-formed line `O - Z - L1` with undeclared `Z` is a fatal `KeyError`;
and the flat build on `[soCampo]` fails. -/
theorem c6_erros_construcao_witness :
    addPar (graphInit ["O"]) "L1" ("O", "Z") = graphInit ["O"] ∧
    parseLinha "soCampo" = .error .valueError ∧
    addLinhaFlat (graphInit ["O", "Z"]) "soCampo" = .error .valueError ∧
    addLinhaFlat (graphInit ["O"]) "O - Z - L1" = .error .keyError ∧
    ∃ e, buildGraphFlatLines ["O"] ["soCampo"] = .error e := by
  have hmal : parseLinha "soCampo" = .error .valueError :=
    c6_erros_construcao.2.1 "soCampo" (by with_unfolding_all decide)
  refine ⟨?_, hmal, ?_, ?_, ?_⟩
  · exact c6_erros_construcao.1 (graphInit ["O"]) "L1" ("O", "Z")
      (Or.inr (by with_unfolding_all decide))
  · exact c6_erros_construcao.2.2.1 (graphInit ["O", "Z"]) "soCampo" .valueError hmal
  · exact c6_erros_construcao.2.2.2.1 (graphInit ["O"]) "O - Z - L1" "O" "Z" "L1"
      (by with_unfolding_all rfl) (Or.inr (by with_unfolding_all decide))
  · exact c6_erros_construcao.2.2.2.2 ["O"] ["soCampo"] "soCampo" (by simp)
      (fun g' => ⟨.valueError, c6_erros_construcao.2.2.1 g' "soCampo" .valueError hmal⟩)

end CP2
